import Mathlib

/-!
Verification development for the jira_ticket_manager repository.

The definitions below are a shallow embedding of the repository's Python
sources:

* `src/jira_ticket_manager/jirals.py` — JQL construction (`parse_jql`,
  the combination step of `main`), table output (`print_issues`) and the
  timestamp formatting it performs;
* `src/jira_ticket_manager/controllers/jira_manager.py` — `JiraManager`
  (`list_tickets`, `create_ticket` validation);
* `src/jira_ticket_manager/jiracat.py` — `format_issue_as_markdown`.

Strings are modelled by Lean `String`/`List Char`; Python `None` by
`Option`; Python truthiness of strings and lists is made explicit.
Exceptions raised inside a `try` block are modelled with `Except`.
-/

/-! ## Python string primitives -/

/-- Truthiness of a Python optional string: `None` and `""` are falsy. -/
def pyTruthy : Option String → Bool
  | none => false
  | some s => s ≠ ""

/-- Whitespace characters stripped by Python `str.strip()` (ASCII range). -/
def pyWs (c : Char) : Bool :=
  c = ' ' || c = '\t' || c = '\n' || c = '\x0d' || c = '\x0b' || c = '\x0c'

/-- Characters of a string with leading and trailing Python whitespace
removed, as `str.strip()` does. -/
def stripChars (l : List Char) : List Char :=
  ((l.dropWhile pyWs).reverse.dropWhile pyWs).reverse

/-- Python `str.strip()`. -/
def pyStrip (s : String) : String := ⟨stripChars s.data⟩

/-- Python `str.split(',')` on the character list: splits at every comma,
keeping empty pieces, and returns `[[]]` on the empty string. -/
def splitCommaCh : List Char → List (List Char)
  | [] => [[]]
  | c :: cs =>
    if c = ',' then [] :: splitCommaCh cs
    else
      match splitCommaCh cs with
      | [] => [[c]]
      | h :: t => (c :: h) :: t

/-- Python `str.split(',')`. -/
def splitComma (s : String) : List String :=
  (splitCommaCh s.data).map fun l => ⟨l⟩

/-- Python `sep.join(parts)`. -/
def joinSep (sep : String) : List String → String
  | [] => ""
  | [x] => x
  | x :: xs => x ++ sep ++ joinSep sep xs

/-! ## Filter Expression Builder — src/jira_ticket_manager/jirals.py

`Args` is the record of command-line criteria `parse_jql` reads
(`args.jql`, `args.my_issues`, `args.my_reported`, `args.project`,
`args.status`, `args.ne_status`, `args.tags`); this is the spec's
FilterCriteria with `jql` as `rawOverride`, `status` / `ne_status` /
`tags` carrying the comma-separated raw strings the CLI receives. -/

structure Args where
  jql : Option String
  my_issues : Bool
  my_reported : Bool
  project : Option String
  status : Option String
  ne_status : Option String
  tags : Option String

/-- Quotation of one value inside a multi-value clause:
`f'"{status.strip()}"'` of jirals.py. -/
def quoteStrip (v : String) : String := "\"" ++ pyStrip v ++ "\""

/-- Clause built from `args.status` (jirals.py lines 44-48). -/
def statusInClause (raw : String) : String :=
  "status IN (" ++ joinSep ", " ((splitComma raw).map quoteStrip) ++ ")"

/-- Clause built from `args.ne_status` (jirals.py lines 49-53). -/
def statusNotInClause (raw : String) : String :=
  "status NOT IN (" ++ joinSep ", " ((splitComma raw).map quoteStrip) ++ ")"

/-- Clause built from `args.tags` (jirals.py lines 54-58). -/
def labelsInClause (raw : String) : String :=
  "labels IN (" ++ joinSep ", " ((splitComma raw).map quoteStrip) ++ ")"

/-- The jirals.py `parse_jql` function (lines 34-60): builds the list of
JQL clauses by appending one clause for each truthy criterion, in source
order. -/
def parse_jql (a : Args) : List String :=
  let parts : List String := []
  let parts := if a.my_issues then parts ++ ["assignee = currentUser()"] else parts
  let parts := if a.my_reported then parts ++ ["reporter = currentUser()"] else parts
  let parts := if pyTruthy a.project then parts ++ ["project = " ++ a.project.getD ""] else parts
  let parts := if pyTruthy a.status then parts ++ [statusInClause (a.status.getD "")] else parts
  let parts := if pyTruthy a.ne_status then parts ++ [statusNotInClause (a.ne_status.getD "")] else parts
  let parts := if pyTruthy a.tags then parts ++ [labelsInClause (a.tags.getD "")] else parts
  parts

/-- The combination step of jirals.py `main` (lines 118-122): join the
clauses with " AND " and append the ordering directive, unless the user
supplied raw JQL or no clause was produced. -/
def combinedJql (a : Args) : Option String :=
  if parse_jql a ≠ [] ∧ pyTruthy a.jql = false then
    some (joinSep " AND " (parse_jql a) ++ " ORDER BY created DESC")
  else a.jql

/-- The default-JQL fallback of `JiraManager.list_tickets`
(controllers/jira_manager.py lines 80-81): a falsy query is replaced by
the default assigned-to-current-user query. -/
def listTicketsJql (jql : Option String) : String :=
  if pyTruthy jql then jql.getD "" else "assignee = currentUser() ORDER BY created DESC"

/-- The query actually sent to the remote search: jirals.py `main`
combination followed by the `list_tickets` default. -/
def buildQuery (a : Args) : String := listTicketsJql (combinedJql a)

/-! ## Issue Submission Validator —
src/jira_ticket_manager/controllers/jira_manager.py `create_ticket` -/

/-- Required keys of a submission payload, in the order the `for` loop of
`create_ticket` checks them (line 111). -/
def requiredFields : List String := ["project", "summary", "issuetype"]

/-- Python `field in ticket_data` for a payload modelled as an
association list. -/
def hasKey {α : Type} (payload : List (String × α)) (k : String) : Bool :=
  payload.any fun kv => kv.1 = k

/-- The validation loop of `create_ticket` (lines 111-115): returns the
first missing required field, or `none` when all are present. -/
def validateTicket {α : Type} (payload : List (String × α)) : Option String :=
  requiredFields.find? fun f => ! hasKey payload f

/-! ## Timestamp normalization — jirals.py `print_issues` lines 71-78

`datetime.strptime(value[:19], "%Y-%m-%dT%H:%M:%S")` followed by
`strftime("%Y-%m-%d %H:%M")`.  The parser below follows `strptime` on the
zero-padded wire format (`%Y` is exactly four digits; the two-digit
fields are zero padded on the wire): fixed-width digit fields separated
by the literal characters of the format, the whole 19-character slice
consumed, and the calendar/range validation `datetime` performs. -/

structure PyDateTime where
  year : Nat
  month : Nat
  day : Nat
  hour : Nat
  minute : Nat
  second : Nat

/-- ASCII decimal digit test. -/
def isDig (c : Char) : Bool := 48 ≤ c.toNat && c.toNat ≤ 57

/-- Value of an ASCII digit character. -/
def digVal (c : Char) : Nat := c.toNat - 48

/-- Parse exactly `n` digits, most significant first, on top of `acc`. -/
def parseDigits (acc : Nat) : Nat → List Char → Option (Nat × List Char)
  | 0, cs => some (acc, cs)
  | _ + 1, [] => none
  | n + 1, c :: cs =>
    if isDig c then parseDigits (acc * 10 + digVal c) n cs else none

/-- Consume one expected literal character. -/
def expectCh (ch : Char) : List Char → Option (List Char)
  | [] => none
  | c :: cs => if c = ch then some cs else none

/-- Python `calendar` leap-year rule used by `datetime` day validation. -/
def isLeapYear (y : Nat) : Bool :=
  (y % 4 = 0 && y % 100 ≠ 0) || y % 400 = 0

/-- Number of days of month `m` of year `y`, as `datetime` validates. -/
def daysInMonth (y m : Nat) : Nat :=
  if m = 2 then (if isLeapYear y then 29 else 28)
  else if m = 4 || m = 6 || m = 9 || m = 11 then 30
  else 31

/-- Model of `datetime.strptime(s, "%Y-%m-%dT%H:%M:%S")` on the
zero-padded wire format: `none` is a raised `ValueError`. -/
def strptime19 (cs : List Char) : Option PyDateTime :=
  (parseDigits 0 4 cs).bind fun py =>
  (expectCh '-' py.2).bind fun cs1 =>
  (parseDigits 0 2 cs1).bind fun pmo =>
  (expectCh '-' pmo.2).bind fun cs2 =>
  (parseDigits 0 2 cs2).bind fun pd =>
  (expectCh 'T' pd.2).bind fun cs3 =>
  (parseDigits 0 2 cs3).bind fun ph =>
  (expectCh ':' ph.2).bind fun cs4 =>
  (parseDigits 0 2 cs4).bind fun pmi =>
  (expectCh ':' pmi.2).bind fun cs5 =>
  (parseDigits 0 2 cs5).bind fun psec =>
  if psec.2 = [] ∧ 1 ≤ py.1 ∧ py.1 ≤ 9999 ∧ 1 ≤ pmo.1 ∧ pmo.1 ≤ 12
      ∧ 1 ≤ pd.1 ∧ pd.1 ≤ daysInMonth py.1 pmo.1
      ∧ ph.1 ≤ 23 ∧ pmi.1 ≤ 59 ∧ psec.1 ≤ 59 then
    some ⟨py.1, pmo.1, pd.1, ph.1, pmi.1, psec.1⟩
  else none

/-- Decimal digit character. -/
def dch (k : Nat) : Char := Char.ofNat (48 + k)

/-- Two-digit zero-padded decimal rendering (`strftime` `%m`/`%d`/`%H`/`%M`). -/
def pad2 (n : Nat) : String := ⟨[dch (n / 10 % 10), dch (n % 10)]⟩

/-- Four-digit zero-padded decimal rendering (`strftime` `%Y`). -/
def pad4 (n : Nat) : String :=
  ⟨[dch (n / 1000 % 10), dch (n / 100 % 10), dch (n / 10 % 10), dch (n % 10)]⟩

/-- Model of `strftime("%Y-%m-%d %H:%M")`: the display format of the
Created/Updated table columns. -/
def strftimeShort (t : PyDateTime) : String :=
  pad4 t.year ++ "-" ++ pad2 t.month ++ "-" ++ pad2 t.day ++ " "
    ++ pad2 t.hour ++ ":" ++ pad2 t.minute

/-- The date handling of `print_issues` for one wire value (jirals.py
lines 73-78): take the first 19 characters, parse, re-render. -/
def formatIssueDate (wire : String) : Option String :=
  (strptime19 (wire.data.take 19)).map strftimeShort

/-- Canonical zero-padded wire timestamp `YYYY-MM-DDTHH:MM:SS`, the
format the remote service sends (before any fractional-second or
timezone suffix). -/
def wireTimestamp (y mo d h mi s : Nat) : String :=
  pad4 y ++ "-" ++ pad2 mo ++ "-" ++ pad2 d ++ "T" ++ pad2 h ++ ":" ++ pad2 mi ++ ":" ++ pad2 s

/-! ## Document Renderer — src/jira_ticket_manager/jiracat.py

`format_issue_as_markdown` and the `re.sub` that rewrites Jira
`{code[:lang]} ... {code}` blocks into markdown fences.  The regex
`\{code(?::([^}]+))?\}(.*?)\{code\}` (DOTALL) is embedded as a direct
left-to-right scanner: at each position, an opening marker is `{code}`
(no tag) or `{code:tag}` with a non-empty tag holding no `}`; the body
is the shortest run of characters up to a literal closing `{code}`; a
position with no full match emits one character and moves on, exactly
as the regex engine advances its start position. -/

/-- The literal `{code` the Python code searches for. -/
def opMarker : String := "\x7bcode"

/-- The literal closing marker `{code}`. -/
def clMarker : String := "\x7bcode\x7d"

/-- Markdown fence characters. -/
def ticks : List Char := "```".data

/-- Boolean list-prefix test. -/
def isPref : List Char → List Char → Bool
  | [], _ => true
  | _ :: _, [] => false
  | a :: as, b :: bs => a == b && isPref as bs

/-- Boolean substring test, Python `pat in s`. -/
def hasSub (pat : List Char) : List Char → Bool
  | [] => isPref pat []
  | c :: cs => isPref pat (c :: cs) || hasSub pat cs

/-- Split off the run of characters before the first `}` (the regex
`([^}]*)\}`): the tag and the characters after the brace, or `none` when
no closing brace exists. -/
def takeLang : List Char → Option (List Char × List Char)
  | [] => none
  | c :: cs =>
    if c = '}' then some ([], cs)
    else
      match takeLang cs with
      | some (lang, rest) => some (c :: lang, rest)
      | none => none

/-- Match the remainder of an opening marker right after `{code`: either
`:tag}` with a non-empty tag free of `}` (the regex group `:([^}]+)`), or
an immediate `}`.  Returns the tag and the characters after the `}`. -/
def matchOpen : List Char → Option (List Char × List Char)
  | ':' :: cs =>
    (match takeLang cs with
      | some (lang, rest) => if lang = [] then none else some (lang, rest)
      | none => none)
  | '}' :: cs => some ([], cs)
  | _ => none

/-- Find the first literal `{code}` (the non-greedy `(.*?)\{code\}`):
returns the body before it and the characters after it. -/
def findClose : List Char → Option (List Char × List Char)
  | [] => none
  | c :: cs =>
    if isPref clMarker.data (c :: cs) then some ([], (c :: cs).drop 6)
    else
      match findClose cs with
      | some (b, r) => some (c :: b, r)
      | none => none

/-- Fuelled scanner for the `re.sub` rewriting; the fuel only bounds the
recursion and `subCodeCh` supplies enough of it for the whole input.  On
a full match at the current position the replacement
`f"```{lang}\n{body}\n```"` is emitted and scanning resumes after the
consumed match, exactly like `re.sub`. -/
def subCodeFuel : Nat → List Char → List Char
  | _, [] => []
  | 0, l => l
  | n + 1, c :: cs =>
    if isPref opMarker.data (c :: cs) then
      match matchOpen ((c :: cs).drop 5) with
      | some (lang, afterOpen) =>
        (match findClose afterOpen with
          | some (body, rest) =>
            ticks ++ lang ++ '\n' :: (body ++ '\n' :: (ticks ++ subCodeFuel n rest))
          | none => c :: subCodeFuel n cs)
      | none => c :: subCodeFuel n cs
    else c :: subCodeFuel n cs

/-- The `re.sub` rewriting of jiracat.py lines 83-85. -/
def subCodeCh (l : List Char) : List Char := subCodeFuel l.length l

/-- Description handling of jiracat.py lines 79-85: the rewriting runs
only when the description contains `{code`. -/
def processDescription (d : String) : String :=
  if hasSub opMarker.data d.data then ⟨subCodeCh d.data⟩ else d

/-- One comment of the fetched issue.  `authorDisplayName` is `none` when
`comment.author` has no `displayName` attribute; `created` is `none` when
the comment has no `created` attribute. -/
structure JCComment where
  authorDisplayName : Option String
  created : Option String
  body : String

/-- The fetched issue as jiracat.py reads it.  Optional sub-objects are
`none` when absent or falsy; `brands` (customfield_12432 values) and
`labels` are empty when falsy; `comment` is `none` when the fields object
has no `comment` attribute. -/
structure JCIssue where
  key : String
  summary : String
  status : Option String
  priority : Option String
  parent : Option String
  issuetype : Option String
  brands : List String
  labels : List String
  creator : Option String
  assignee : Option String
  reporter : Option String
  created : Option String
  updated : Option String
  description : Option String
  comment : Option (List JCComment)

/-- Python `s.split('T')[0]`. -/
def beforeT (s : String) : String := ⟨s.data.takeWhile fun c => c ≠ 'T'⟩

/-- The `issue_metadata` block (jiracat.py lines 37-49). -/
def issueMetadata (i : JCIssue) : List String :=
  let m : List String := []
  let m := match i.status with | some n => m ++ ["**Status:** " ++ n] | none => m
  let m := match i.priority with | some n => m ++ ["**Priority:** " ++ n] | none => m
  let m := match i.parent with | some k => m ++ ["**Parent:** " ++ k] | none => m
  let m := match i.issuetype with | some n => m ++ ["**Type:** " ++ n] | none => m
  let m := if i.brands ≠ [] then m ++ ["**Brands:** " ++ joinSep ", " i.brands] else m
  let m := if i.labels ≠ [] then m ++ ["**Labels:** " ++ joinSep ", " i.labels] else m
  m

/-- The `user_metadata` block (jiracat.py lines 50-58). -/
def userMetadata (i : JCIssue) : List String :=
  let m : List String := []
  let m := match i.creator with | some n => m ++ ["**Creator:** " ++ n] | none => m
  let m := match i.assignee with | some n => m ++ ["**Assignee:** " ++ n] | none => m
  let m := match i.reporter with | some n => m ++ ["**Reporter:** " ++ n] | none => m
  m

/-- The `date_metdata` block (jiracat.py lines 59-64); the guards are
string truthiness. -/
def dateMetadata (i : JCIssue) : List String :=
  let m : List String := []
  let m := if pyTruthy i.created then m ++ ["**Created:** " ++ beforeT (i.created.getD "")] else m
  let m := if pyTruthy i.updated then m ++ ["**Updated:** " ++ beforeT (i.updated.getD "")] else m
  m

/-- Heading plus the three metadata blocks (jiracat.py lines 33-73). -/
def headerAndMetadata (i : JCIssue) : String :=
  "# " ++ i.key ++ ": " ++ i.summary ++ "\n\n" ++ "## Metadata\n\n"
    ++ joinSep "\n" (issueMetadata i) ++ "\n\n"
    ++ joinSep "\n" (userMetadata i) ++ "\n\n"
    ++ joinSep "\n" (dateMetadata i) ++ "\n\n"

/-- The description section (jiracat.py lines 76-86): present only when
the description is truthy; no text at all is emitted otherwise. -/
def descriptionSection (d : Option String) : String :=
  if pyTruthy d then "## Description\n\n" ++ processDescription (d.getD "") ++ "\n\n" else ""

/-- One comment sub-section (jiracat.py lines 91-98). -/
def renderComment (c : JCComment) : String :=
  "### " ++ c.authorDisplayName.getD "Unknown" ++ " - "
    ++ (match c.created with | some s => beforeT s | none => "Unknown date")
    ++ "\n\n" ++ c.body ++ "\n\n---\n\n"

/-- Sequential concatenation, the `markdown +=` loop of jiracat.py. -/
def concatStrings : List String → String
  | [] => ""
  | s :: t => s ++ concatStrings t

/-- The comments section (jiracat.py lines 89-98). -/
def commentsSection : Option (List JCComment) → String
  | none => ""
  | some cs => "## Comments\n\n" ++ concatStrings (cs.map renderComment)

/-- The whole of `format_issue_as_markdown` (jiracat.py lines 31-100). -/
def format_issue_as_markdown (i : JCIssue) : String :=
  headerAndMetadata i ++ descriptionSection i.description ++ commentsSection i.comment

/-! ## Tabular listing flow — jirals.py `main` lines 124-134 and
controllers/jira_manager.py `JiraManager.list_tickets` lines 78-93 -/

/-- Words of a string: runs of non-whitespace, as Python `str.split()`
produces for `textwrap.shorten`'s whitespace collapsing. -/
def wordsAux : List Char → List Char → List (List Char)
  | [], acc => if acc = [] then [] else [acc.reverse]
  | c :: cs, acc =>
    if pyWs c then (if acc = [] then wordsAux cs [] else acc.reverse :: wordsAux cs [])
    else wordsAux cs (c :: acc)

/-- Python `text.split()`. -/
def pyWords (s : String) : List String := (wordsAux s.data []).map fun l => ⟨l⟩

/-- Longest run of leading words whose space-joined length plus the
3-character placeholder fits the width. -/
def takeFit (width : Nat) (cur : Nat) : List String → List String
  | [] => []
  | w :: ws =>
    let add := if cur = 0 then w.length else cur + 1 + w.length
    if add + 3 ≤ width then w :: takeFit width add ws else []

/-- Model of `textwrap.shorten(text, width, placeholder='...')`: collapse
whitespace; keep the text when it fits, otherwise keep as many leading
words as fit together with the placeholder.  (The mid-word splitting
`textwrap` applies to a single overlong word is not modelled; no claim
concerns the summary column's content.) -/
def pyShorten (width : Nat) (text : String) : String :=
  let ws := pyWords text
  let collapsed := joinSep " " ws
  if collapsed.length ≤ width then collapsed
  else joinSep " " (takeFit width 0 ws) ++ "..."

/-- One raw issue as the jirals.py table code reads it.  `assignee` and
`priority` are `none` when the sub-object is falsy; `labels` is `none`
when the fields object has no such attribute. -/
structure RawIssue where
  key : String
  created : String
  updated : String
  assignee : Option String
  status : String
  priority : Option String
  summary : String
  labels : Option (List String)

/-- Assignee cell (jirals.py line 86). -/
def assigneeCell (i : RawIssue) : String := i.assignee.getD "Unassigned"

/-- Priority cell (jirals.py line 89). -/
def priorityCell (i : RawIssue) : String := i.priority.getD "N/A"

/-- Tags cell (jirals.py lines 81-83). -/
def tagsCell (i : RawIssue) : String :=
  match i.labels with
  | some ls => if ls ≠ [] then joinSep ", " ls else ""
  | none => ""

/-- One table row of `print_issues` (jirals.py lines 71-96); a
`ValueError` from `strptime` on a malformed date propagates. -/
def issueRow (i : RawIssue) : Except String (List String) :=
  match formatIssueDate i.created with
  | none => Except.error "ValueError: time data does not match format"
  | some c =>
  match formatIssueDate i.updated with
  | none => Except.error "ValueError: time data does not match format"
  | some u =>
  Except.ok [i.key, c, u, assigneeCell i, i.status, priorityCell i, pyShorten 50 i.summary, tagsCell i]

/-- The `print_issues` function of jirals.py (lines 63-99): iterating a
`None` argument raises `TypeError`; otherwise it prints the table rows on
stdout and the count line on stderr. -/
def print_issues (issues : Option (List RawIssue)) :
    Except String (List (List String) × List String) :=
  match issues with
  | none => Except.error "TypeError: NoneType object is not iterable"
  | some l =>
    match l.mapM issueRow with
    | Except.error e => Except.error e
    | Except.ok rows => Except.ok (rows, ["Total issues: " ++ toString l.length])

/-- The zero-result handling of `JiraManager.list_tickets`
(controllers/jira_manager.py lines 84-90) given the remote search's
result: an empty result prints the notice on stderr and returns `None`
(a bare `return`); otherwise the issues are returned. -/
def list_tickets (searchResult : List RawIssue) : Option (List RawIssue) × List String :=
  if searchResult.isEmpty then (none, ["No issues found."])
  else (some searchResult, [])

/-- Methods defined by the `JiraManager` class of
src/jira_ticket_manager/controllers/jira_manager.py. -/
def jiraManagerMethods : List String :=
  ["__init__", "_load_config", "_save_config", "_connect", "_prompt_credentials",
   "list_tickets", "view_ticket", "create_ticket"]

/-- The method name jirals.py `main` line 126 invokes on its
`JiraManager` instance. -/
def jiralsListCallName : String := "list_issues"

/-- Outcome of the jirals listing run: exit code, tables printed on the
primary channel, diagnostic lines on stderr. -/
structure ListRunOutcome where
  exitCode : Nat
  tables : List (List (List String))
  diagnostics : List String

/-- The issue-listing block of jirals.py `main` (lines 124-134), given
the remote search's result, with the listing call read as the only
listing method the controllers class defines (`list_tickets`; the name
actually invoked, `list_issues`, does not exist on the class, so the real
run raises `AttributeError` here and exits 1 whatever the result is).
The `except` clause turns any raised error into exit code 1. -/
def jiralsListFlow (searchResult : List RawIssue) : ListRunOutcome :=
  let r := list_tickets searchResult
  let notice :=
    match r.1 with
    | none => ["No issues found matching your criteria."]
    | some l => if l.isEmpty then ["No issues found matching your criteria."] else []
  match print_issues r.1 with
  | Except.ok (rows, more) => ⟨0, [rows], r.2 ++ notice ++ more⟩
  | Except.error e => ⟨1, [], r.2 ++ notice ++ ["Failed to get issues: " ++ e]⟩

/-! ## Helper lemmas -/

/-- Two strings are equal when their character lists are. -/
theorem str_eq_of_data {a b : String} (h : a.data = b.data) : a = b := by
  cases a; cases b; exact congrArg String.mk h

/-- Appending the ordering directive never yields the empty string. -/
theorem append_directive_ne_empty (s : String) : s ++ " ORDER BY created DESC" ≠ "" := by
  intro h
  have hl := congrArg String.length h
  rw [String.length_append] at hl
  have hd : (" ORDER BY created DESC").length = 22 := by decide
  have he : ("" : String).length = 0 := by decide
  omega

/-- The clause list `parse_jql` builds, written as the concatenation of
six optional singleton clauses in the source's fixed order. -/
theorem parse_jql_eq (a : Args) :
    parse_jql a =
      (if a.my_issues then ["assignee = currentUser()"] else []) ++
      (if a.my_reported then ["reporter = currentUser()"] else []) ++
      (if pyTruthy a.project then ["project = " ++ a.project.getD ""] else []) ++
      (if pyTruthy a.status then [statusInClause (a.status.getD "")] else []) ++
      (if pyTruthy a.ne_status then [statusNotInClause (a.ne_status.getD "")] else []) ++
      (if pyTruthy a.tags then [labelsInClause (a.tags.getD "")] else []) := by
  unfold parse_jql
  split_ifs <;> rfl

/-- C1: if `rawOverride` (the `--jql` argument) is set and non-empty, the
query sent to the search is that string exactly, whatever the other
criteria are. -/
theorem raw_override_wins (a : Args) (s : String) (hj : a.jql = some s) (hs : s ≠ "") :
    buildQuery a = s := by
  have ht : pyTruthy (some s) = true := by simp [pyTruthy, hs]
  simp [buildQuery, combinedJql, listTicketsJql, hj, ht]

/-- Witness for C1: a non-empty override beats six fully-set criteria. -/
theorem raw_override_wins_w :
    buildQuery ⟨some "project = FOO", true, true, some "OPS", some "A,B", some "C", some "D"⟩
      = "project = FOO" :=
  raw_override_wins _ _ rfl (by decide)

/-- C4: with no criterion set and no raw override, the search runs the
default assigned-to-current-user query with the ordering directive. -/
theorem default_query_when_no_criteria (a : Args)
    (hj : pyTruthy a.jql = false)
    (h1 : a.my_issues = false) (h2 : a.my_reported = false)
    (h3 : pyTruthy a.project = false) (h4 : pyTruthy a.status = false)
    (h5 : pyTruthy a.ne_status = false) (h6 : pyTruthy a.tags = false) :
    buildQuery a = "assignee = currentUser() ORDER BY created DESC" := by
  have hp : parse_jql a = [] := by
    rw [parse_jql_eq, h1, h2, h3, h4, h5, h6]; rfl
  simp [buildQuery, combinedJql, listTicketsJql, hp, hj]

/-- Witness for C4 at the all-absent criteria record. -/
theorem default_query_when_no_criteria_w :
    buildQuery ⟨none, false, false, none, none, none, none⟩
      = "assignee = currentUser() ORDER BY created DESC" :=
  default_query_when_no_criteria _ rfl rfl rfl rfl rfl rfl rfl

/-- The key-membership test depends only on the payload's keys. -/
theorem hasKey_keys {α : Type} (p : List (String × α)) (k : String) :
    hasKey p k = (p.map Prod.fst).any fun x => x = k := by
  induction p with
  | nil => rfl
  | cons kv t ih => simp [hasKey, List.any_cons] at ih ⊢; rw [ih]

/-- C6: `create_ticket` validation checks `project`, `summary`,
`issuetype` in that fixed order, fails on the first missing key only, and
looks at nothing but key presence. -/
theorem validate_fail_fast {α β : Type} (p : List (String × α)) (q : List (String × β)) :
    (hasKey p "project" = false → validateTicket p = some "project")
  ∧ (hasKey p "project" = true → hasKey p "summary" = false →
      validateTicket p = some "summary")
  ∧ (hasKey p "project" = true → hasKey p "summary" = true →
      hasKey p "issuetype" = false → validateTicket p = some "issuetype")
  ∧ (hasKey p "project" = true → hasKey p "summary" = true →
      hasKey p "issuetype" = true → validateTicket p = none)
  ∧ (p.map Prod.fst = q.map Prod.fst → validateTicket p = validateTicket q) := by
  refine ⟨?_, ?_, ?_, ?_, ?_⟩
  · intro h; simp [validateTicket, requiredFields, List.find?, h]
  · intro h1 h2; simp [validateTicket, requiredFields, List.find?, h1, h2]
  · intro h1 h2 h3; simp [validateTicket, requiredFields, List.find?, h1, h2, h3]
  · intro h1 h2 h3; simp [validateTicket, requiredFields, List.find?, h1, h2, h3]
  · intro h
    unfold validateTicket
    have : (fun f => ! hasKey p f) = fun f => ! hasKey q f := by
      funext f; rw [hasKey_keys, hasKey_keys, h]
    rw [this]

/-- Witness for C6: the scenario payload `{"summary": "x"}` fails on
`project` (not `issuetype`), and a payload with all three keys passes. -/
theorem validate_fail_fast_w :
    validateTicket [("summary", "x")] = some "project"
  ∧ validateTicket [("project", "P"), ("summary", "x"), ("issuetype", "Task")] = none := by
  constructor
  · exact (validate_fail_fast [("summary", "x")] ([] : List (String × Nat))).1 (by decide)
  · exact (validate_fail_fast [("project", "P"), ("summary", "x"), ("issuetype", "Task")]
      ([] : List (String × Nat))).2.2.2.1 (by decide) (by decide) (by decide)

/-- An infix survives prepending on the left. -/
theorem infix_append_left {α : Type} (x : List α) {l w : List α} (h : l <:+: w) :
    l <:+: x ++ w := by
  obtain ⟨u, v, huv⟩ := h
  exact ⟨x ++ u, v, by rw [← huv]; simp [List.append_assoc]⟩

/-- The rendering of a member comment is an infix of the concatenated
comment renderings. -/
theorem data_infix_concat (f : JCComment → String) (c : JCComment) (cs : List JCComment)
    (h : c ∈ cs) : (f c).data <:+: (concatStrings (cs.map f)).data := by
  induction cs with
  | nil => cases h
  | cons a t ih =>
    rcases List.mem_cons.mp h with rfl | hmem
    · exact ⟨[], (concatStrings (t.map f)).data, by simp [concatStrings, String.data_append]⟩
    · have := ih hmem
      rw [List.map_cons, concatStrings, String.data_append]
      exact infix_append_left _ this

/-- C5 evaluation: with the listing call read as `list_tickets` (the name
jirals.py actually invokes, `list_issues`, is not a method of the
controllers `JiraManager` at all), a search returning zero records prints
no table, does emit the diagnostic no-results notice, but exits with
code 1: `list_tickets` returns `None` and `print_issues(None)` raises,
so the `except` branch of `main` runs `sys.exit(1)`. -/
theorem zero_results_flow :
    jiralsListCallName ∉ jiraManagerMethods
  ∧ (jiralsListFlow []).tables = []
  ∧ "No issues found." ∈ (jiralsListFlow []).diagnostics
  ∧ (jiralsListFlow []).exitCode = 1 := by decide

/-- C9 counterexample: for an issue with no description (and nothing else
optional present), `format_issue_as_markdown` emits no description
section and no notice at all — no fragment of the word "description"
occurs anywhere in the output. -/
theorem no_description_notice_cx :
    format_issue_as_markdown ⟨"K-1", "S", none, none, none, none, [], [], none, none,
        none, none, none, none, none⟩ = "# K-1: S\n\n## Metadata\n\n\n\n\n\n\n\n"
  ∧ hasSub "escription".data (format_issue_as_markdown ⟨"K-1", "S", none, none, none,
        none, [], [], none, none, none, none, none, none, none⟩).data = false := by
  constructor <;> decide

/-- C9 amended: when the description is absent or empty, the document
renderer omits the description section entirely — it contributes no text,
rather than a "no description" notice (that notice exists only in the
deprecated plain-text viewer, not in this renderer). -/
theorem no_description_section_omitted (i : JCIssue) (h : pyTruthy i.description = false) :
    descriptionSection i.description = ""
  ∧ format_issue_as_markdown i = headerAndMetadata i ++ commentsSection i.comment := by
  have h1 : descriptionSection i.description = "" := by rw [descriptionSection, h]; rfl
  refine ⟨h1, ?_⟩
  rw [format_issue_as_markdown, h1]
  apply str_eq_of_data
  simp [String.data_append]

/-- Witness for the amended C9 at a concrete descriptionless issue. -/
theorem no_description_section_omitted_w :
    format_issue_as_markdown ⟨"K-2", "T", none, none, none, none, [], [], none, none,
        none, none, none, none, some []⟩
      = headerAndMetadata ⟨"K-2", "T", none, none, none, none, [], [], none, none,
        none, none, none, none, some []⟩ ++ commentsSection (some []) :=
  (no_description_section_omitted ⟨"K-2", "T", none, none, none, none, [], [], none,
    none, none, none, none, none, some []⟩ rfl).2

/-- C10: a comment whose `created` attribute is absent renders with the
fixed "Unknown date" placeholder in its heading, its body rendered
normally, and its rendering still appears inside the whole document. -/
theorem comment_unknown_date (c : JCComment) (h : c.created = none) :
    renderComment c = "### " ++ c.authorDisplayName.getD "Unknown"
        ++ " - Unknown date\n\n" ++ c.body ++ "\n\n---\n\n"
  ∧ ∀ (i : JCIssue) (cs : List JCComment), i.comment = some cs → c ∈ cs →
      (renderComment c).data <:+: (format_issue_as_markdown i).data := by
  constructor
  · apply str_eq_of_data
    simp [renderComment, h, String.data_append]
  · intro i cs hc hmem
    have h1 := data_infix_concat renderComment c cs hmem
    rw [format_issue_as_markdown, hc, commentsSection]
    rw [String.data_append, String.data_append]
    exact infix_append_left _ (infix_append_left _ h1)

/-- Witness for C10 at a concrete comment with no created attribute. -/
theorem comment_unknown_date_w :
    renderComment ⟨some "Alice", none, "Hi"⟩
      = "### " ++ "Alice" ++ " - Unknown date\n\n" ++ "Hi" ++ "\n\n---\n\n" :=
  (comment_unknown_date ⟨some "Alice", none, "Hi"⟩ rfl).1

/-- C2: without a raw override and with at least one clause, the search
query is the clauses joined with " AND " plus the fixed
most-recently-created-first ordering directive, and the clause list is
exactly one clause per present criterion in the fixed source order
assignee, reporter, project, status-in, status-not-in, labels. -/
theorem clause_order_and_directive (a : Args) (hj : pyTruthy a.jql = false)
    (hne : parse_jql a ≠ []) :
    buildQuery a = joinSep " AND " (parse_jql a) ++ " ORDER BY created DESC"
  ∧ parse_jql a =
      (if a.my_issues then ["assignee = currentUser()"] else []) ++
      (if a.my_reported then ["reporter = currentUser()"] else []) ++
      (if pyTruthy a.project then ["project = " ++ a.project.getD ""] else []) ++
      (if pyTruthy a.status then [statusInClause (a.status.getD "")] else []) ++
      (if pyTruthy a.ne_status then [statusNotInClause (a.ne_status.getD "")] else []) ++
      (if pyTruthy a.tags then [labelsInClause (a.tags.getD "")] else []) := by
  refine ⟨?_, parse_jql_eq a⟩
  have hc : combinedJql a
      = some (joinSep " AND " (parse_jql a) ++ " ORDER BY created DESC") := by
    rw [combinedJql, if_pos ⟨hne, hj⟩]
  have hnz := append_directive_ne_empty (joinSep " AND " (parse_jql a))
  rw [buildQuery, hc, listTicketsJql]
  simp [pyTruthy, hnz]

/-- Witness for C2 with all six criteria present: the six clauses appear
in the fixed order, AND-joined, with the trailing directive. -/
theorem clause_order_and_directive_w :
    buildQuery ⟨none, true, true, some "OPS", some "A", some "B", some "C"⟩
      = "assignee = currentUser() AND reporter = currentUser() AND project = OPS"
        ++ " AND status IN (\"A\") AND status NOT IN (\"B\") AND labels IN (\"C\")"
        ++ " ORDER BY created DESC" := by
  have h := (clause_order_and_directive
    ⟨none, true, true, some "OPS", some "A", some "B", some "C"⟩ rfl (by decide)).1
  rw [h]; decide

/-- Splitting at a comma that follows a comma-free chunk. -/
theorem splitCommaCh_append (l rest : List Char) (hl : ∀ c ∈ l, c ≠ ',') :
    splitCommaCh (l ++ ',' :: rest) = l :: splitCommaCh rest := by
  induction l with
  | nil => simp [splitCommaCh]
  | cons c t ih =>
    have hc : c ≠ ',' := hl c (List.mem_cons_self c t)
    have ih2 := ih fun x hx => hl x (List.mem_cons_of_mem _ hx)
    simp [splitCommaCh, hc, ih2]

/-- Splitting a comma-free string yields that string alone. -/
theorem splitCommaCh_nocomma (l : List Char) (hl : ∀ c ∈ l, c ≠ ',') :
    splitCommaCh l = [l] := by
  induction l with
  | nil => rfl
  | cons c t ih =>
    have hc : c ≠ ',' := hl c (List.mem_cons_self c t)
    have ih2 := ih fun x hx => hl x (List.mem_cons_of_mem _ hx)
    simp [splitCommaCh, hc, ih2]

/-- Python `",".join(values).split(',')` returns the values unchanged
when no value contains a comma. -/
theorem splitComma_joinSep (ss : List String) (h : ss ≠ [])
    (hc : ∀ s ∈ ss, ∀ c ∈ s.data, c ≠ ',') :
    splitComma (joinSep "," ss) = ss := by
  induction ss with
  | nil => exact absurd rfl h
  | cons x t ih =>
    cases t with
    | nil =>
      rw [show joinSep "," [x] = x from rfl, splitComma,
        splitCommaCh_nocomma x.data (hc x (List.mem_cons_self x []))]
      rfl
    | cons y t2 =>
      have hx := hc x (List.mem_cons_self x (y :: t2))
      have ihr := ih (by simp) fun s hs => hc s (List.mem_cons_of_mem _ hs)
      rw [show joinSep "," (x :: y :: t2) = x ++ "," ++ joinSep "," (y :: t2) from rfl,
        splitComma]
      rw [show (x ++ "," ++ joinSep "," (y :: t2)).data
          = x.data ++ ',' :: (joinSep "," (y :: t2)).data from by simp [String.data_append]]
      rw [splitCommaCh_append x.data _ hx, List.map_cons]
      rw [show (⟨x.data⟩ : String) = x from rfl]
      rw [show (splitCommaCh (joinSep "," (y :: t2)).data).map (fun l => (⟨l⟩ : String))
          = splitComma (joinSep "," (y :: t2)) from rfl, ihr]

/-- C3: a non-empty multi-value criterion renders as an IN (resp. NOT IN)
membership test over the comma-joined list of double-quoted,
whitespace-trimmed values, preserving input order and duplicates; and the
scenario criteria (project plus include-statuses) produce the
`project = ... AND status IN (...)` query with the ordering directive. -/
theorem multi_value_clauses (ss : List String) (p : String)
    (hne : ss ≠ []) (hc : ∀ s ∈ ss, ∀ c ∈ s.data, c ≠ ',')
    (hraw : joinSep "," ss ≠ "") (hp : p ≠ "") :
    statusInClause (joinSep "," ss)
      = "status IN (" ++ joinSep ", " (ss.map quoteStrip) ++ ")"
  ∧ statusNotInClause (joinSep "," ss)
      = "status NOT IN (" ++ joinSep ", " (ss.map quoteStrip) ++ ")"
  ∧ labelsInClause (joinSep "," ss)
      = "labels IN (" ++ joinSep ", " (ss.map quoteStrip) ++ ")"
  ∧ buildQuery ⟨none, false, false, some p, some (joinSep "," ss), none, none⟩
      = "project = " ++ p ++ " AND " ++ statusInClause (joinSep "," ss)
        ++ " ORDER BY created DESC" := by
  have hsplit := splitComma_joinSep ss hne hc
  refine ⟨by rw [statusInClause, hsplit], by rw [statusNotInClause, hsplit],
    by rw [labelsInClause, hsplit], ?_⟩
  have ha : pyTruthy (some p) = true := by simp [pyTruthy, hp]
  have hb : pyTruthy (some (joinSep "," ss)) = true := by simp [pyTruthy, hraw]
  have hp1 : parse_jql ⟨none, false, false, some p, some (joinSep "," ss), none, none⟩
      = ["project = " ++ p, statusInClause (joinSep "," ss)] := by
    rw [parse_jql_eq]
    simp [ha, hb, pyTruthy, hp, hraw]
  have h2 := (clause_order_and_directive
    ⟨none, false, false, some p, some (joinSep "," ss), none, none⟩ rfl
    (by rw [hp1]; exact List.cons_ne_nil _ _)).1
  rw [h2, hp1]
  rfl

/-- Witness for C3: the spec's scenario criteria. -/
theorem multi_value_clauses_w :
    statusInClause "To Do,In Progress" = "status IN (\"To Do\", \"In Progress\")"
  ∧ buildQuery ⟨none, false, false, some "OPS", some "To Do,In Progress", none, none⟩
      = "project = OPS AND status IN (\"To Do\", \"In Progress\") ORDER BY created DESC" := by
  have h := multi_value_clauses ["To Do", "In Progress"] "OPS"
    (by decide) (by decide) (by decide) (by decide)
  have hj : joinSep "," ["To Do", "In Progress"] = "To Do,In Progress" := by decide
  constructor
  · have h1 := h.1
    rw [hj] at h1
    rw [h1]; decide
  · have h4 := h.2.2.2
    rw [hj] at h4
    rw [h4]; decide

/-- A decimal digit character passes the digit test. -/
theorem isDig_dch (k : Nat) (h : k < 10) : isDig (dch k) = true := by
  interval_cases k <;> decide

/-- A decimal digit character decodes to its value. -/
theorem digVal_dch (k : Nat) (h : k < 10) : digVal (dch k) = k := by
  interval_cases k <;> decide

/-- Parsing the two zero-padded digits of a value below 100. -/
theorem parseDigits_pad2 (n : Nat) (rest : List Char) (h : n < 100) :
    parseDigits 0 2 ((pad2 n).data ++ rest) = some (n, rest) := by
  have h1 : n / 10 % 10 < 10 := Nat.mod_lt _ (by norm_num)
  have h2 : n % 10 < 10 := Nat.mod_lt _ (by norm_num)
  simp [pad2, parseDigits, isDig_dch _ h1, digVal_dch _ h1, isDig_dch _ h2, digVal_dch _ h2]
  omega

/-- Parsing the four zero-padded digits of a value below 10000. -/
theorem parseDigits_pad4 (y : Nat) (rest : List Char) (h : y < 10000) :
    parseDigits 0 4 ((pad4 y).data ++ rest) = some (y, rest) := by
  have h1 : y / 1000 % 10 < 10 := Nat.mod_lt _ (by norm_num)
  have h2 : y / 100 % 10 < 10 := Nat.mod_lt _ (by norm_num)
  have h3 : y / 10 % 10 < 10 := Nat.mod_lt _ (by norm_num)
  have h4 : y % 10 < 10 := Nat.mod_lt _ (by norm_num)
  simp [pad4, parseDigits, isDig_dch _ h1, digVal_dch _ h1, isDig_dch _ h2, digVal_dch _ h2,
    isDig_dch _ h3, digVal_dch _ h3, isDig_dch _ h4, digVal_dch _ h4]
  omega

/-- Consuming an expected literal character. -/
theorem expectCh_cons (ch : Char) (cs : List Char) : expectCh ch (ch :: cs) = some cs := by
  simp [expectCh]

/-- No month has more than 31 days. -/
theorem daysInMonth_le (y m : Nat) : daysInMonth y m ≤ 31 := by
  rw [daysInMonth]
  split_ifs <;> omega

/-- The character list of a canonical wire timestamp. -/
theorem wire_data (y mo d hr mi sec : Nat) :
    (wireTimestamp y mo d hr mi sec).data
      = (pad4 y).data ++ '-' :: ((pad2 mo).data ++ '-' :: ((pad2 d).data ++ 'T' ::
        ((pad2 hr).data ++ ':' :: ((pad2 mi).data ++ ':' :: (pad2 sec).data)))) := by
  have hm : ("-" : String).data = ['-'] := rfl
  have ht : ("T" : String).data = ['T'] := rfl
  have hc : (":" : String).data = [':'] := rfl
  simp [wireTimestamp, String.data_append, hm, ht, hc]

/-- A canonical wire timestamp is exactly 19 characters. -/
theorem wire_len (y mo d hr mi sec : Nat) :
    (wireTimestamp y mo d hr mi sec).data.length = 19 := by
  rw [wire_data]; simp [pad4, pad2]

/-- C7: for a wire timestamp in the canonical `YYYY-MM-DDTHH:MM:SS` form
followed by any fractional-second or timezone suffix, the table
formatter keeps exactly the first 19 characters, discards the suffix,
and renders the value as `YYYY-MM-DD HH:MM` (seconds dropped, never
rounded). -/
theorem timestamp_truncation (y mo d hr mi sec : Nat) (suffix : String)
    (hy1 : 1 ≤ y) (hy : y ≤ 9999) (hm1 : 1 ≤ mo) (hm : mo ≤ 12)
    (hd1 : 1 ≤ d) (hdle : d ≤ daysInMonth y mo) (hh23 : hr ≤ 23)
    (hmi59 : mi ≤ 59) (hs59 : sec ≤ 59) :
    formatIssueDate (wireTimestamp y mo d hr mi sec ++ suffix)
      = some (pad4 y ++ "-" ++ pad2 mo ++ "-" ++ pad2 d ++ " " ++ pad2 hr ++ ":" ++ pad2 mi) := by
  have hdata : (wireTimestamp y mo d hr mi sec ++ suffix).data
      = (wireTimestamp y mo d hr mi sec).data ++ suffix.data := String.data_append _ _
  have htake : ((wireTimestamp y mo d hr mi sec).data ++ suffix.data).take 19
      = (wireTimestamp y mo d hr mi sec).data := by
    rw [← wire_len y mo d hr mi sec]
    exact List.take_left _ _
  have h4 : ∀ rest, parseDigits 0 4 ((pad4 y).data ++ rest) = some (y, rest) :=
    fun rest => parseDigits_pad4 y rest (by omega)
  have hmo2 : ∀ rest, parseDigits 0 2 ((pad2 mo).data ++ rest) = some (mo, rest) :=
    fun rest => parseDigits_pad2 mo rest (by omega)
  have hdd2 : ∀ rest, parseDigits 0 2 ((pad2 d).data ++ rest) = some (d, rest) :=
    fun rest => parseDigits_pad2 d rest (by have := daysInMonth_le y mo; omega)
  have hhr2 : ∀ rest, parseDigits 0 2 ((pad2 hr).data ++ rest) = some (hr, rest) :=
    fun rest => parseDigits_pad2 hr rest (by omega)
  have hmi2 : ∀ rest, parseDigits 0 2 ((pad2 mi).data ++ rest) = some (mi, rest) :=
    fun rest => parseDigits_pad2 mi rest (by omega)
  have hse2 : ∀ rest, parseDigits 0 2 ((pad2 sec).data ++ rest) = some (sec, rest) :=
    fun rest => parseDigits_pad2 sec rest (by omega)
  rw [formatIssueDate, hdata, htake, wire_data]
  simp only [strptime19, h4, hmo2, hdd2, hhr2, hmi2, expectCh_cons, Option.some_bind]
  rw [show (pad2 sec).data = (pad2 sec).data ++ [] from by simp]
  simp only [hse2]
  simp [strftimeShort, hy1, hy, hm1, hm, hd1, hdle, hh23, hmi59, hs59]

/-- Witness for C7: a wire value with fractional seconds and a timezone
suffix renders with the suffix and the seconds discarded. -/
theorem timestamp_truncation_w :
    formatIssueDate "2024-03-15T10:30:45.123+0000" = some "2024-03-15 10:30" := by
  have h := timestamp_truncation 2024 3 15 10 30 45 ".123+0000"
    (by omega) (by omega) (by omega) (by omega) (by omega) (by decide)
    (by omega) (by omega) (by omega)
  have e1 : wireTimestamp 2024 3 15 10 30 45 ++ ".123+0000" = "2024-03-15T10:30:45.123+0000" := by
    decide
  have e2 : pad4 2024 ++ "-" ++ pad2 3 ++ "-" ++ pad2 15 ++ " " ++ pad2 10 ++ ":" ++ pad2 30
      = "2024-03-15 10:30" := by decide
  rw [e1, e2] at h
  exact h

/-- The Boolean prefix test agrees with list-prefix decomposition. -/
theorem isPref_iff (p l : List Char) : isPref p l = true ↔ ∃ t, l = p ++ t := by
  induction p generalizing l with
  | nil => simp [isPref]
  | cons a as ih =>
    cases l with
    | nil =>
      simp [isPref]
    | cons b bs =>
      rw [isPref, Bool.and_eq_true, beq_iff_eq, ih]
      constructor
      · rintro ⟨rfl, t, rfl⟩
        exact ⟨t, rfl⟩
      · rintro ⟨t, ht⟩
        rw [List.cons_append] at ht
        obtain ⟨h1, h2⟩ := List.cons.injEq .. ▸ ht
        exact ⟨h1.symm, t, h2⟩

/-- A short left factor of one side of an equal append is a prefix of a
long left factor of the other side. -/
theorem pref_of_append_eq (l t b r : List Char) (h : l ++ t = b ++ r)
    (hl : l.length ≤ b.length) : isPref l b = true := by
  rw [isPref_iff]
  refine ⟨b.drop l.length, ?_⟩
  have h1 : b.take l.length = l := by
    have h2 := congrArg (List.take l.length) h
    rw [List.take_append_eq_append_take, List.take_append_eq_append_take] at h2
    simp [Nat.sub_eq_zero_of_le hl] at h2
    exact h2.symm
  conv_lhs => rw [← List.take_append_drop l.length b]
  rw [h1]

/-- A brace-free chunk cannot reach past the first brace of the other
side of an equal append. -/
theorem len_le_of_append_eq (l : List Char) (hl : '{' ∉ l) :
    ∀ (t b r : List Char), l ++ t = b ++ '{' :: r → l.length ≤ b.length := by
  induction l with
  | nil => intro t b r _; simp
  | cons a as ih =>
    intro t b r he
    cases b with
    | nil =>
      rw [List.cons_append, List.nil_append] at he
      obtain ⟨h1, _⟩ := List.cons.injEq .. ▸ he
      exact absurd (h1 ▸ List.mem_cons_self a as) hl
    | cons x bs =>
      rw [List.cons_append, List.cons_append] at he
      obtain ⟨_, h2⟩ := List.cons.injEq .. ▸ he
      have := ih (fun hmem => hl (List.mem_cons_of_mem _ hmem)) t bs r h2
      simp [List.length_cons]
      omega

/-- A pattern planted in the middle of a string is found by `hasSub`. -/
theorem hasSub_mid (p x y : List Char) : hasSub p (x ++ (p ++ y)) = true := by
  induction x with
  | nil =>
    rw [List.nil_append]
    cases hpy : p ++ y with
    | nil =>
      have hp : p = [] := (List.append_eq_nil.mp hpy).1
      subst hp
      rfl
    | cons c cs =>
      rw [hasSub]
      have hpc : isPref p (c :: cs) = true := isPref_iff .. |>.mpr ⟨y, hpy.symm⟩
      rw [hpc, Bool.true_or]
  | cons a x' ih =>
    rw [List.cons_append, hasSub, ih, Bool.or_true]

/-- Shortening the pattern preserves a prefix match. -/
theorem isPref_of_append (p q l : List Char) (h : isPref (p ++ q) l = true) :
    isPref p l = true := by
  rw [isPref_iff] at h ⊢
  obtain ⟨t, rfl⟩ := h
  exact ⟨q ++ t, by simp [List.append_assoc]⟩

/-- A string free of a pattern is free of every extension of it. -/
theorem hasSub_anti (p q l : List Char) (h : hasSub p l = false) :
    hasSub (p ++ q) l = false := by
  induction l with
  | nil =>
    rw [hasSub] at h ⊢
    by_contra hc
    rw [Bool.not_eq_false] at hc
    exact absurd (isPref_of_append p q [] hc) (by simp [h])
  | cons c cs ih =>
    rw [hasSub, Bool.or_eq_false_iff] at h
    rw [hasSub, Bool.or_eq_false_iff]
    refine ⟨?_, ih h.2⟩
    by_contra hc
    rw [Bool.not_eq_false] at hc
    exact absurd (isPref_of_append p q _ hc) (by simp [h.1])

/-- A string with no `{code` has no `{code}` either. -/
theorem hasSub_cl_false (b : List Char) (h : hasSub opMarker.data b = false) :
    hasSub clMarker.data b = false := by
  have e : clMarker.data = opMarker.data ++ [('}' : Char)] := by decide
  rw [e]
  exact hasSub_anti _ _ _ h

/-- At a position inside a chunk free of the marker, and whose right
context is empty or starts with a brace, the marker does not match. -/
theorem isPref_marker_false (tail : List Char) (htail : '{' ∉ tail) (c : Char)
    (b' : List Char) (hb : hasSub ('{' :: tail) (c :: b') = false) (rest : List Char)
    (hrest : rest = [] ∨ ∃ r', rest = '{' :: r') :
    isPref ('{' :: tail) (c :: (b' ++ rest)) = false := by
  by_contra hc
  rw [Bool.not_eq_false, isPref_iff] at hc
  obtain ⟨t, ht⟩ := hc
  rw [List.cons_append] at ht
  injection ht with hc1 h2
  have hpref : isPref tail b' = true := by
    rcases hrest with rfl | ⟨r', rfl⟩
    · rw [List.append_nil] at h2
      exact isPref_iff .. |>.mpr ⟨t, h2⟩
    · have hlen := len_le_of_append_eq tail htail t b' r' h2.symm
      exact pref_of_append_eq tail t b' ('{' :: r') h2.symm hlen
  have hful : isPref ('{' :: tail) (c :: b') = true := by
    rw [isPref, Bool.and_eq_true, beq_iff_eq]
    exact ⟨hc1.symm, hpref⟩
  rw [hasSub, hful, Bool.true_or] at hb
  exact Bool.true_eq_false.mp hb

/-- The tag splitter stops at the first closing brace. -/
theorem takeLang_append (l rest : List Char) (hl : ∀ c ∈ l, c ≠ '}') :
    takeLang (l ++ '}' :: rest) = some (l, rest) := by
  induction l with
  | nil => simp [takeLang]
  | cons c t ih =>
    have hc : c ≠ '}' := hl c (List.mem_cons_self c t)
    have h2 := ih fun x hx => hl x (List.mem_cons_of_mem _ hx)
    simp [takeLang, hc, h2]

/-- Matching the tagged form of an opening marker. -/
theorem matchOpen_at (l rest : List Char) (hne : l ≠ []) (hl : ∀ c ∈ l, c ≠ '}') :
    matchOpen (':' :: (l ++ '}' :: rest)) = some (l, rest) := by
  rw [matchOpen, takeLang_append l rest hl]
  simp [hne]

/-- The first closing marker after a marker-free body is found exactly
there. -/
theorem findClose_append (b r : List Char) (hb : hasSub clMarker.data b = false) :
    findClose (b ++ clMarker.data ++ r) = some (b, r) := by
  induction b with
  | nil =>
    have hp : isPref clMarker.data ('{' :: ('c' :: 'o' :: 'd' :: 'e' :: '}' :: r)) = true :=
      isPref_iff .. |>.mpr ⟨r, rfl⟩
    rw [List.nil_append,
      show clMarker.data ++ r = '{' :: ('c' :: 'o' :: 'd' :: 'e' :: '}' :: r) from rfl]
    simp [findClose, hp]
  | cons c b' ih =>
    have hb' : hasSub clMarker.data b' = false := by
      rw [hasSub, Bool.or_eq_false_iff] at hb
      exact hb.2
    have hfalse : isPref clMarker.data (c :: (b' ++ (clMarker.data ++ r))) = false := by
      exact isPref_marker_false ('c' :: 'o' :: 'd' :: 'e' :: '}' :: []) (by decide) c b' hb
        (clMarker.data ++ r) (Or.inr ⟨'c' :: 'o' :: 'd' :: 'e' :: '}' :: r, rfl⟩)
    have ih2 := ih hb'
    rw [List.append_assoc] at ih2
    rw [List.append_assoc, List.cons_append]
    rw [findClose]
    simp only [hfalse, Bool.false_eq_true, if_false, ih2]

/-- The tag splitter strictly shrinks its input. -/
theorem takeLang_len (cs : List Char) : ∀ lang rest, takeLang cs = some (lang, rest) →
    rest.length < cs.length := by
  induction cs with
  | nil => intro lang rest h; simp [takeLang] at h
  | cons c cs' ih =>
    intro lang rest h
    rw [takeLang] at h
    by_cases hc : c = '}'
    · rw [if_pos hc] at h
      simp only [Option.some.injEq, Prod.mk.injEq] at h
      obtain ⟨_, h2⟩ := h
      subst h2
      simp only [List.length_cons]
      omega
    · rw [if_neg hc] at h
      cases htl : takeLang cs' with
      | none => rw [htl] at h; exact absurd h (by simp)
      | some p =>
        obtain ⟨l2, r2⟩ := p
        rw [htl] at h
        simp only [Option.some.injEq, Prod.mk.injEq] at h
        obtain ⟨_, h2⟩ := h
        have h3 := ih l2 r2 htl
        subst h2
        simp only [List.length_cons]
        omega

/-- The opening-marker matcher strictly shrinks its input. -/
theorem matchOpen_len (cs lang rest : List Char) (h : matchOpen cs = some (lang, rest)) :
    rest.length < cs.length := by
  unfold matchOpen at h
  split at h
  next cs' =>
    cases htl : takeLang cs' with
    | none => rw [htl] at h; exact absurd h (by simp)
    | some p =>
      obtain ⟨l2, r2⟩ := p
      rw [htl] at h
      dsimp only at h
      by_cases hl2 : l2 = []
      · rw [if_pos hl2] at h
        exact absurd h (by simp)
      · rw [if_neg hl2] at h
        simp only [Option.some.injEq, Prod.mk.injEq] at h
        obtain ⟨_, h2⟩ := h
        have h3 := takeLang_len cs' l2 r2 htl
        subst h2
        simp only [List.length_cons]
        omega
  next cs' =>
    simp only [Option.some.injEq, Prod.mk.injEq] at h
    obtain ⟨_, h2⟩ := h
    subst h2
    simp only [List.length_cons]
    omega
  next =>
    exact absurd h (by simp)

/-- The close finder strictly shrinks its input. -/
theorem findClose_len (l : List Char) : ∀ b r, findClose l = some (b, r) →
    r.length < l.length := by
  induction l with
  | nil => intro b r h; simp [findClose] at h
  | cons c cs ih =>
    intro b r h
    rw [findClose] at h
    by_cases hp : isPref clMarker.data (c :: cs) = true
    · rw [if_pos hp] at h
      simp only [Option.some.injEq, Prod.mk.injEq] at h
      obtain ⟨_, h2⟩ := h
      subst h2
      simp only [List.drop, List.length_cons, List.length_drop]
      omega
    · rw [if_neg hp] at h
      cases hfc : findClose cs with
      | none => rw [hfc] at h; exact absurd h (by simp)
      | some p =>
        obtain ⟨b2, r2⟩ := p
        rw [hfc] at h
        simp only [Option.some.injEq, Prod.mk.injEq] at h
        obtain ⟨_, h2⟩ := h
        have h3 := ih b2 r2 hfc
        subst h2
        simp only [List.length_cons]
        omega

/-- The scanner leaves the empty input empty at any fuel. -/
theorem subCodeFuel_nil (f : Nat) : subCodeFuel f [] = [] := by
  cases f <;> rfl

/-- The fuel does not matter once it covers the input's length. -/
theorem subCodeFuel_congr (f : Nat) : ∀ (g : Nat) (l : List Char),
    l.length ≤ f → l.length ≤ g → subCodeFuel f l = subCodeFuel g l := by
  induction f with
  | zero =>
    intro g l h1 _
    have : l = [] := List.eq_nil_of_length_eq_zero (Nat.le_zero.mp h1)
    subst this
    rw [subCodeFuel_nil, subCodeFuel_nil]
  | succ f' ih =>
    intro g l h1 h2
    cases l with
    | nil => rw [subCodeFuel_nil, subCodeFuel_nil]
    | cons c cs =>
      cases g with
      | zero => exact absurd h2 (by simp)
      | succ g' =>
        simp only [List.length_cons] at h1 h2
        rw [subCodeFuel, subCodeFuel]
        by_cases hp : isPref opMarker.data (c :: cs) = true
        · rw [if_pos hp, if_pos hp]
          cases hmo : matchOpen ((c :: cs).drop 5) with
          | none => dsimp only; rw [ih g' cs (by omega) (by omega)]
          | some po =>
            obtain ⟨lang, afterOpen⟩ := po
            have hmol := matchOpen_len _ _ _ hmo
            rw [List.length_drop, List.length_cons] at hmol
            dsimp only
            cases hfc : findClose afterOpen with
            | none => dsimp only; rw [ih g' cs (by omega) (by omega)]
            | some pc =>
              obtain ⟨body, rest⟩ := pc
              have hfcl := findClose_len afterOpen body rest hfc
              dsimp only
              rw [ih g' rest (by omega) (by omega)]
        · rw [if_neg hp, if_neg hp, ih g' cs (by omega) (by omega)]

/-- The opening marker does not match inside a marker-free chunk whose
right context is empty or brace-headed. -/
theorem isPref_op_false (c : Char) (b' rest : List Char)
    (hb : hasSub opMarker.data (c :: b') = false)
    (hrest : rest = [] ∨ ∃ r', rest = '{' :: r') :
    isPref opMarker.data (c :: (b' ++ rest)) = false :=
  isPref_marker_false ('c' :: 'o' :: 'd' :: 'e' :: []) (by decide) c b' hb rest hrest

/-- The scanner copies a marker-free chunk unchanged and continues. -/
theorem subCodeFuel_pass (b : List Char) (rest : List Char)
    (hrest : rest = [] ∨ ∃ r', rest = '{' :: r') (n : Nat) :
    hasSub opMarker.data b = false →
    subCodeFuel (b.length + n) (b ++ rest) = b ++ subCodeFuel n rest := by
  induction b with
  | nil => intro _; simp
  | cons c b' ih =>
    intro hb
    have hb' : hasSub opMarker.data b' = false := by
      rw [hasSub, Bool.or_eq_false_iff] at hb
      exact hb.2
    have hp := isPref_op_false c b' rest hb hrest
    simp only [List.length_cons, List.cons_append]
    rw [Nat.add_right_comm]
    rw [subCodeFuel, if_neg (by rw [hp]; exact Bool.false_ne_true)]
    rw [ih hb']

/-- Passing a marker-free chunk, phrased on `subCodeCh`. -/
theorem subCode_pass (b rest : List Char)
    (hrest : rest = [] ∨ ∃ r', rest = '{' :: r')
    (hb : hasSub opMarker.data b = false) :
    subCodeCh (b ++ rest) = b ++ subCodeCh rest := by
  rw [subCodeCh, subCodeCh, List.length_append]
  exact subCodeFuel_pass b rest hrest _ hb

/-- The close finder, right-associated input. -/
theorem findClose_append2 (b r : List Char) (hb : hasSub clMarker.data b = false) :
    findClose (b ++ (clMarker.data ++ r)) = some (b, r) := by
  rw [← List.append_assoc]
  exact findClose_append b r hb

/-- One full match of the code-fence pattern: the scanner emits the
markdown replacement and resumes after the closing marker. -/
theorem subCodeFuel_step (l body rest : List Char) (n : Nat) (hne : l ≠ [])
    (hl : ∀ c ∈ l, c ≠ '}') (hbody : hasSub clMarker.data body = false) :
    subCodeFuel (n + 1) (opMarker.data ++ ':' :: (l ++ '}' :: (body ++ (clMarker.data ++ rest))))
      = ticks ++ l ++ '\n' :: (body ++ '\n' :: (ticks ++ subCodeFuel n rest)) := by
  have hiP : isPref opMarker.data
      ('{' :: ('c' :: 'o' :: 'd' :: 'e' ::
        (':' :: (l ++ '}' :: (body ++ (clMarker.data ++ rest))))))
      = true :=
    isPref_iff .. |>.mpr ⟨':' :: (l ++ '}' :: (body ++ (clMarker.data ++ rest))), rfl⟩
  rw [show opMarker.data ++ ':' :: (l ++ '}' :: (body ++ (clMarker.data ++ rest)))
      = '{' :: ('c' :: 'o' :: 'd' :: 'e' ::
        (':' :: (l ++ '}' :: (body ++ (clMarker.data ++ rest))))) from rfl]
  rw [subCodeFuel, if_pos hiP]
  simp only [List.drop_succ_cons, List.drop_zero]
  rw [matchOpen_at l _ hne hl]
  dsimp only
  rw [findClose_append2 body rest hbody]

/-- One full match, phrased on `subCodeCh`. -/
theorem subCode_step (l body rest : List Char) (hne : l ≠ [])
    (hl : ∀ c ∈ l, c ≠ '}') (hbody : hasSub clMarker.data body = false) :
    subCodeCh (opMarker.data ++ ':' :: (l ++ '}' :: (body ++ (clMarker.data ++ rest))))
      = ticks ++ l ++ '\n' :: (body ++ '\n' :: (ticks ++ subCodeCh rest)) := by
  rw [subCodeCh]
  have h5 : opMarker.data.length = 5 := by decide
  have h6 : clMarker.data.length = 6 := by decide
  have hlen : (opMarker.data ++ ':' :: (l ++ '}' :: (body ++ (clMarker.data ++ rest)))).length
      = (l.length + body.length + rest.length + 12) + 1 := by
    simp [List.length_append, List.length_cons, h5, h6]
    omega
  rw [hlen, subCodeFuel_step l body rest _ hne hl hbody]
  rw [subCodeFuel_congr (l.length + body.length + rest.length + 12) rest.length rest
    (by omega) (by omega)]
  rw [subCodeCh]

/-- The scanner fixes the empty list. -/
theorem subCodeCh_nil : subCodeCh [] = [] := rfl

/-- A chunk with no opening marker passes through `subCodeCh` unchanged. -/
theorem subCode_id (b : List Char) (hb : hasSub opMarker.data b = false) :
    subCodeCh b = b := by
  have h := subCode_pass b [] (Or.inl rfl) hb
  rw [List.append_nil, subCodeCh_nil, List.append_nil] at h
  exact h

/-- C8: a description holding two paired code-fence blocks with distinct
non-empty language tags (and no stray `{code` in the surrounding text,
the bodies or the tags) is rewritten into two independent markdown
fenced blocks, each keeping its tag and its body byte for byte, with the
surrounding text untouched. -/
theorem code_fence_rewriting (pre mid post b1 b2 l1 l2 : String)
    (hpre : hasSub opMarker.data pre.data = false)
    (hmid : hasSub opMarker.data mid.data = false)
    (hpost : hasSub opMarker.data post.data = false)
    (hb1 : hasSub opMarker.data b1.data = false)
    (hb2 : hasSub opMarker.data b2.data = false)
    (hl1 : l1.data ≠ []) (hl1c : ∀ c ∈ l1.data, c ≠ '}')
    (hl2 : l2.data ≠ []) (hl2c : ∀ c ∈ l2.data, c ≠ '}')
    (hll : l1 ≠ l2) :
    processDescription (pre ++ "\x7bcode:" ++ l1 ++ "\x7d" ++ b1 ++ "\x7bcode\x7d"
        ++ mid ++ "\x7bcode:" ++ l2 ++ "\x7d" ++ b2 ++ "\x7bcode\x7d" ++ post)
      = pre ++ "```" ++ l1 ++ "\n" ++ b1 ++ "\n" ++ "```" ++ mid
        ++ "```" ++ l2 ++ "\n" ++ b2 ++ "\n" ++ "```" ++ post := by
  have hD : (pre ++ "\x7bcode:" ++ l1 ++ "\x7d" ++ b1 ++ "\x7bcode\x7d"
        ++ mid ++ "\x7bcode:" ++ l2 ++ "\x7d" ++ b2 ++ "\x7bcode\x7d" ++ post).data
      = pre.data ++ (opMarker.data ++ ':' :: (l1.data ++ '}' :: (b1.data ++ (clMarker.data
        ++ (mid.data ++ (opMarker.data ++ ':' :: (l2.data ++ '}' :: (b2.data
        ++ (clMarker.data ++ post.data))))))))) := by
    simp only [String.data_append, List.append_assoc]
    rfl
  have hguard : hasSub opMarker.data (pre ++ "\x7bcode:" ++ l1 ++ "\x7d" ++ b1
      ++ "\x7bcode\x7d" ++ mid ++ "\x7bcode:" ++ l2 ++ "\x7d" ++ b2 ++ "\x7bcode\x7d"
      ++ post).data = true := by
    rw [hD]
    exact hasSub_mid _ _ _
  rw [processDescription, if_pos hguard]
  apply str_eq_of_data
  show subCodeCh (pre ++ "\x7bcode:" ++ l1 ++ "\x7d" ++ b1 ++ "\x7bcode\x7d"
      ++ mid ++ "\x7bcode:" ++ l2 ++ "\x7d" ++ b2 ++ "\x7bcode\x7d" ++ post).data = _
  rw [hD]
  rw [subCode_pass pre.data
    (opMarker.data ++ ':' :: (l1.data ++ '}' :: (b1.data ++ (clMarker.data
      ++ (mid.data ++ (opMarker.data ++ ':' :: (l2.data ++ '}' :: (b2.data
      ++ (clMarker.data ++ post.data)))))))))
    (Or.inr ⟨_, rfl⟩) hpre]
  rw [subCode_step l1.data b1.data _ hl1 hl1c (hasSub_cl_false _ hb1)]
  rw [subCode_pass mid.data
    (opMarker.data ++ ':' :: (l2.data ++ '}' :: (b2.data ++ (clMarker.data ++ post.data))))
    (Or.inr ⟨_, rfl⟩) hmid]
  rw [subCode_step l2.data b2.data post.data hl2 hl2c (hasSub_cl_false _ hb2)]
  rw [subCode_id post.data hpost]
  simp [String.data_append, ticks, List.append_assoc]

/-- Witness for C8: two concrete fence blocks with different tags. -/
theorem code_fence_rewriting_w :
    processDescription ("Intro\n" ++ "\x7bcode:" ++ "python" ++ "\x7d" ++ "x = 1\n"
        ++ "\x7bcode\x7d" ++ "\nmiddle\n" ++ "\x7bcode:" ++ "java" ++ "\x7d" ++ "int y;\n"
        ++ "\x7bcode\x7d" ++ "\nend")
      = "Intro\n" ++ "```" ++ "python" ++ "\n" ++ "x = 1\n" ++ "\n" ++ "```" ++ "\nmiddle\n"
        ++ "```" ++ "java" ++ "\n" ++ "int y;\n" ++ "\n" ++ "```" ++ "\nend" :=
  code_fence_rewriting "Intro\n" "\nmiddle\n" "\nend" "x = 1\n" "int y;\n" "python" "java"
    (by decide) (by decide) (by decide) (by decide) (by decide) (by decide) (by decide)
    (by decide) (by decide) (by decide)
